import Mathlib

/-!
# sai: verification of `cmd/sai/main.go`

A shallow embedding of the single source file of the repository.  `main` is a
straight-line program over the process environment; it is modelled as a pure
function from a `World` (flag values, environment, standard input, the HTTP
exchange) to an `Outcome` (the ordered trace of observable effects and the
exit status).

Go strings are modelled by `String`.  Calls into the Go standard library
(`encoding/json`, `net/http`, `bufio.Scanner`) are not code of the repository:
they enter the model as parameters (`unmarshal`, `World.marshal`,
`World.httpDo`, `Body.lines`), so that every general theorem holds for
whatever these libraries compute.  A concrete decoder `jsonUnmarshal` for the
`Response` type serves to run the program on literal lines.
-/

namespace Sai

/-! ## Data model (main.go lines 15-41) -/

/-- Constant `defaultModel`, the default value of the `model` flag. -/
def defaultModel : String := "gpt-4o-mini"

/-- Constant `apiURL`. -/
def apiURL : String := "https://api.openai.com/v1/chat/completions"

/-- Type `Message`. -/
structure Message where
  Role : String
  Content : String
deriving DecidableEq, Repr

/-- Type `Request`. -/
structure Request where
  Model : String
  Messages : List Message
  Stream : Bool
deriving DecidableEq, Repr

/-- Type `Delta`. -/
structure Delta where
  Content : String := ""
deriving DecidableEq, Repr

/-- Type `Choice`. -/
structure Choice where
  Delta : Delta := {}
deriving DecidableEq, Repr

/-- Type `Response`. -/
structure Response where
  Choices : List Choice := []
deriving DecidableEq, Repr

/-! ## Observable effects -/

/-- An outgoing HTTP request as assembled at lines 116-123. -/
structure HttpRequest where
  method : String
  url : String
  body : String
  headers : List (String × String)
deriving DecidableEq, Repr

/-- One observable effect of the process, in program order. -/
inductive Event where
  /-- The call `os.Stdin.Stat()`. -/
  | stdinStat
  /-- One call of `reader.ReadString` on standard input. -/
  | stdinRead
  /-- One write to standard output (`fmt.Print`, `fmt.Println`). -/
  | stdout (text : String)
  /-- One write to standard error (`fmt.Fprintln`, `fmt.Fprintf` on `os.Stderr`). -/
  | stderr (text : String)
  /-- The call `client.Do(httpReq)`: the request goes out on the network. -/
  | httpDo (req : HttpRequest)
  /-- The deferred `resp.Body.Close()`, run when `main` returns normally. -/
  | bodyClose
  /-- A run-time fault raised by the Go runtime (nil dereference). -/
  | fault
deriving DecidableEq, Repr

/-- What a run of the process leaves behind: its effects and its exit status. -/
structure Outcome where
  trace : List Event
  exitCode : Nat
deriving DecidableEq, Repr

/-- The texts written to standard output, one entry per write, in order. -/
def stdoutWrites : List Event → List String
  | [] => []
  | .stdout s :: es => s :: stdoutWrites es
  | _ :: es => stdoutWrites es

/-- The texts written to standard error, one entry per write, in order. -/
def stderrWrites : List Event → List String
  | [] => []
  | .stderr s :: es => s :: stderrWrites es
  | _ :: es => stderrWrites es

/-- The requests sent on the network, in order. -/
def requestsSent : List Event → List HttpRequest
  | [] => []
  | .httpDo r :: es => r :: requestsSent es
  | _ :: es => requestsSent es

/-- The number of accesses to standard input (`Stat` or `ReadString`). -/
def stdinAccesses : List Event → Nat
  | [] => 0
  | .stdinStat :: es => stdinAccesses es + 1
  | .stdinRead :: es => stdinAccesses es + 1
  | _ :: es => stdinAccesses es

/-- Concatenation of a list of strings. -/
def concat : List String → String
  | [] => ""
  | s :: ss => s ++ concat ss

/-! ## String helpers of package `strings` -/

/-- The function `strings.HasPrefix`. -/
def hasPrefix (s pre : String) : Bool :=
  pre.data.isPrefixOf s.data

/-- The function `strings.TrimPrefix`: `s` without the leading `pre`, or `s`
unchanged when it does not start with `pre`. -/
def trimPrefix (s pre : String) : String :=
  if hasPrefix s pre then ⟨s.data.drop pre.data.length⟩ else s

/-! ## The streaming decode loop (main.go lines 141-171) -/

/-- The loop `for scanner.Scan() { ... }` of lines 143-164, run over the lines
the scanner yields.  Every branch of the body ends in `continue` or falls off
the end of the body: no branch leaves the loop. -/
def decodeLoop (unmarshal : String → Except String Response) : List String → List Event
  | [] => []
  | line :: rest =>
    if !hasPrefix line "data: " then
      decodeLoop unmarshal rest
    else
      let data := trimPrefix line "data: "
      if data = "" ∨ data = "[DONE]" then
        decodeLoop unmarshal rest
      else
        match unmarshal data with
        | .error err =>
          .stderr ("Error decoding response: " ++ err ++ "\n") :: decodeLoop unmarshal rest
        | .ok response =>
          if h : response.Choices.length > 0 then
            if response.Choices[0].Delta.Content ≠ "" then
              .stdout response.Choices[0].Delta.Content :: decodeLoop unmarshal rest
            else
              decodeLoop unmarshal rest
          else
            decodeLoop unmarshal rest

/-- Lines 141-171: the decode loop, the check of `scanner.Err()` and the final
`fmt.Println()`.  `scanErr` is the value of `scanner.Err()` after the loop. -/
def processStream (unmarshal : String → Except String Response)
    (lines : List String) (scanErr : Option String) : Outcome :=
  let evs := decodeLoop unmarshal lines
  match scanErr with
  | some err => ⟨evs ++ [.stderr ("Error reading response: " ++ err ++ "\n")], 1⟩
  | none => ⟨evs ++ [.stdout "\n", .bodyClose], 0⟩

/-! ## Standard input (main.go lines 64-85) -/

/-- Standard input: the text that can be read from it, and how the stream
ends: `none` for end of file, `some e` for a read error `e` after the text. -/
structure Stdin where
  content : String
  failure : Option String := none
deriving DecidableEq, Repr

/-- The error value returned by a read. -/
inductive ReadError where
  | eof
  | other (msg : String)
deriving DecidableEq, Repr

/-- The method `ReadString('\n')` of `bufio.Reader` on the unread input `buf`:
the string returned, the error returned, and the input left unread.  With a
line feed in the input the call returns the text up to and including the
first one; without, it returns all the input together with the error that
ends the stream. -/
def readString (buf : List Char) (failure : Option String) :
    String × Option ReadError × List Char :=
  match buf.dropWhile (fun c => c != '\n') with
  | delim :: rest => (⟨buf.takeWhile (fun c => c != '\n') ++ [delim]⟩, none, rest)
  | [] => (⟨buf⟩, some (match failure with | none => .eof | some e => .other e), [])

/-- The loop of lines 75-85 from the unread input `buf` with `input` holding
`acc`: the reads made, and the accumulated text or the message of the read
error.  A read that returns `io.EOF` ends the loop before its string is
appended. -/
def readLoop (failure : Option String) (buf : List Char) (acc : String) :
    List Event × Except String String :=
  match h : readString buf failure with
  | (_, some .eof, _) => ([.stdinRead], .ok acc)
  | (_, some (.other msg), _) => ([.stdinRead], .error msg)
  | (line, none, rest) =>
    have hlt : rest.length < buf.length := by
      have hle : (buf.dropWhile (fun c => c != '\n')).length ≤ buf.length :=
        (List.dropWhile_sublist _).length_le
      unfold readString at h
      split at h
      · rename_i delim rest1 hd
        simp only [Prod.mk.injEq, true_and] at h
        rw [hd, h.2, List.length_cons] at hle
        omega
      · simp at h
    let r := readLoop failure rest (acc ++ line)
    (.stdinRead :: r.1, r.2)
termination_by buf.length

/-- Lines 72-85: standard input read until a read returns an error. -/
def readInput (stdin : Stdin) : List Event × Except String String :=
  readLoop stdin.failure stdin.content.data ""

/-! ## Prompt and request (main.go lines 87-123) -/

/-- Lines 87-94: the prompt built from the `context` flag, the `code` flag and
the text read from standard input. -/
def buildPrompt (context : String) (codeOnly : Bool) (input : String) : String :=
  let prompt := input
  let prompt := if context ≠ "" then context ++ "\n\n" ++ prompt else prompt
  let prompt :=
    if codeOnly then
      "You are a code-only assistant. Return ONLY the code without any explanations, backticks, or markdown formatting. Do not include any text before or after the code.\n\n"
        ++ prompt
    else prompt
  prompt

/-- Lines 96-106: the request value. -/
def buildRequest (model prompt : String) : Request :=
  { Model := model
    Messages := [{ Role := "user", Content := prompt }]
    Stream := true }

/-- The method `Header.Set`: the value of `key` is replaced. -/
def HttpRequest.setHeader (r : HttpRequest) (key value : String) : HttpRequest :=
  { r with headers := r.headers.filter (fun kv => kv.1 ≠ key) ++ [(key, value)] }

/-- The method `Header.Get`: the value of `key`, or the empty string. -/
def HttpRequest.header (r : HttpRequest) (key : String) : String :=
  match r.headers.find? (fun kv => kv.1 = key) with
  | some kv => kv.2
  | none => ""

/-- Lines 115-123: `http.NewRequest("POST", apiURL, body)` followed by the two
`Header.Set` calls.  `http.NewRequest` fails only for an invalid method or an
unparsable URL; here both are constants it accepts, so the error branch of
lines 117-120 cannot be taken. -/
def buildHttpRequest (reqBody apiKey : String) : HttpRequest :=
  let httpReq : HttpRequest := { method := "POST", url := apiURL, body := reqBody, headers := [] }
  let httpReq := httpReq.setHeader "Content-Type" "application/json"
  let httpReq := httpReq.setHeader "Authorization" ("Bearer " ++ apiKey)
  httpReq

/-! ## The HTTP response (main.go lines 132-171) -/

/-- The body of an HTTP response, as the two readers of `main` see it. -/
structure Body where
  /-- The text `io.ReadAll(resp.Body)` returns (its error is discarded). -/
  all : String
  /-- The lines `bufio.Scanner` yields, in order, before `Scan` returns false:
  the text between line ends, without the line end.  A line too long for the
  buffer of the scanner is not yielded: it ends the scan with an error. -/
  lines : List String
  /-- The value of `scanner.Err()` after the loop: `none` after a clean end
  of the stream. -/
  err : Option String := none
deriving DecidableEq, Repr

/-- An HTTP response. -/
structure HttpResponse where
  StatusCode : Int
  Body : Body
deriving DecidableEq, Repr

/-- Constant `http.StatusOK`. -/
def StatusOK : Int := 200

/-- Lines 134-171: the status check followed by the stream processing. -/
def handleResponse (unmarshal : String → Except String Response) (resp : HttpResponse) :
    Outcome :=
  if resp.StatusCode ≠ StatusOK then
    ⟨[.stderr ("Error from API (status " ++ toString resp.StatusCode ++ "): "
        ++ resp.Body.all ++ "\n")], 1⟩
  else
    processStream unmarshal resp.Body.lines resp.Body.err

/-! ## The program -/

/-- The values of the command-line flags after `flag.Parse()`. -/
structure Flags where
  context : String := ""
  model : String := defaultModel
  apiKey : String := ""
  codeOnly : Bool := false
deriving DecidableEq, Repr

/-- Everything outside the process that `main` depends on. -/
structure World where
  flags : Flags
  /-- The function `os.Getenv`; the empty string for an unset variable. -/
  getenv : String → String
  /-- The result of `os.Stdin.Stat()`: `none` when the call fails (`stat` is
  nil), otherwise whether the mode has the bit `os.ModeCharDevice`. -/
  stdinStat : Option Bool
  stdin : Stdin
  /-- The function `json.Marshal` on a `Request`. -/
  marshal : Request → Except String String
  /-- The method `client.Do`. -/
  httpDo : HttpRequest → Except String HttpResponse
  /-- The function `json.Unmarshal` into a zero `Response`. -/
  unmarshal : String → Except String Response

/-- Lines 64-171: `main` once the API key is known to be `apiKey`. -/
def mainWithKey (w : World) (apiKey : String) : Outcome :=
  match w.stdinStat with
  | none => ⟨[.stdinStat, .fault], 2⟩
  | some true =>
    ⟨[.stdinStat,
      .stderr "Error: No input provided. Please pipe some input to sai.\n",
      .stderr "Example: echo 'Hello, world!' | sai\n"], 1⟩
  | some false =>
    let reads := readInput w.stdin
    match reads.2 with
    | .error err =>
      ⟨.stdinStat :: reads.1 ++ [.stderr ("Error reading input: " ++ err ++ "\n")], 1⟩
    | .ok input =>
      let prompt := buildPrompt w.flags.context w.flags.codeOnly input
      let req := buildRequest w.flags.model prompt
      match w.marshal req with
      | .error err =>
        ⟨.stdinStat :: reads.1 ++ [.stderr ("Error marshaling request: " ++ err ++ "\n")], 1⟩
      | .ok reqBody =>
        let httpReq := buildHttpRequest reqBody apiKey
        match w.httpDo httpReq with
        | .error err =>
          ⟨.stdinStat :: reads.1
            ++ [.httpDo httpReq, .stderr ("Error sending request: " ++ err ++ "\n")], 1⟩
        | .ok resp =>
          let o := handleResponse w.unmarshal resp
          ⟨.stdinStat :: reads.1 ++ .httpDo httpReq :: o.trace, o.exitCode⟩

/-- The function `main`. -/
def main (w : World) : Outcome :=
  if w.flags.apiKey = "" then
    let apiKey := w.getenv "OPENAI_API_KEY"
    if apiKey = "" then
      ⟨[.stderr "Error: OpenAI API key must be provided either via --api-key or OPENAI_API_KEY environment variable\n"], 1⟩
    else
      mainWithKey w apiKey
  else
    mainWithKey w w.flags.apiKey

/-! ## A decoder for `json.Unmarshal(data, &response)`

The program reaches `encoding/json` through the parameter `unmarshal`.  This
section gives one such decoder, written after the documented behaviour of the
Go package for the target type `Response`: the JSON grammar with the nesting
limit of the package, member names matched exactly or under case folding,
unknown members skipped, `null` leaving a struct or a string as it is, a value
of the wrong kind reported as an error, and a repeated member decoded into
what the earlier occurrence left.  Its input is a `String`, so a text that is
not valid UTF-8 is outside its domain. -/

/-- A parsed JSON value.  Numbers carry no payload: no field of `Response`
accepts one. -/
inductive Json where
  | null
  | bool (b : Bool)
  | num
  | str (s : String)
  | arr (items : List Json)
  | obj (fields : List (String × Json))
deriving Repr

/-- A lexical token of JSON text.  A string token holds the raw characters
between the quotes, escapes still in place. -/
inductive Token where
  | lbrace | rbrace | lbrack | rbrack | colon | comma
  | str (raw : List Char)
  | num
  | lit (v : Json)
deriving Repr

/-- Progress through a number literal. -/
inductive NumState where
  | minus | zero | int | dot | frac | e | esign | exp
deriving DecidableEq, Repr

/-- State of the lexer between two characters. -/
inductive LexState where
  /-- Between tokens. -/
  | idle
  /-- Inside a string; `acc` holds the raw characters read so far, reversed. -/
  | str (acc : List Char)
  /-- Inside a string, right after a backslash. -/
  | esc (acc : List Char)
  /-- Inside a string, after a backslash, `u` and `n` hexadecimal digits. -/
  | hex (acc : List Char) (n : Nat)
  /-- Inside a number. -/
  | num (st : NumState)
  /-- Inside `true`, `false` or `null`; `rest` is what must still follow. -/
  | lit (rest : List Char) (v : Json)
deriving Repr

/-- White space between tokens. -/
def isSpace (c : Char) : Bool := c = ' ' || c = '\t' || c = '\r' || c = '\n'

/-- A decimal digit. -/
def isDigit (c : Char) : Bool := '0'.toNat ≤ c.toNat && c.toNat ≤ '9'.toNat

/-- A hexadecimal digit. -/
def isHex (c : Char) : Bool :=
  isDigit c || ('a'.toNat ≤ c.toNat && c.toNat ≤ 'f'.toNat)
    || ('A'.toNat ≤ c.toNat && c.toNat ≤ 'F'.toNat)

/-- Whether a number literal may end in this state. -/
def NumState.final : NumState → Bool
  | .zero | .int | .frac | .exp => true
  | _ => false

/-- One more character of a number literal; `none` when `c` does not extend it. -/
def NumState.next (st : NumState) (c : Char) : Option NumState :=
  match st with
  | .minus => if c = '0' then some .zero else if isDigit c then some .int else none
  | .zero => if c = '.' then some .dot else if c = 'e' || c = 'E' then some .e else none
  | .int =>
    if isDigit c then some .int else if c = '.' then some .dot
    else if c = 'e' || c = 'E' then some .e else none
  | .dot => if isDigit c then some .frac else none
  | .frac => if isDigit c then some .frac else if c = 'e' || c = 'E' then some .e else none
  | .e => if c = '+' || c = '-' then some .esign else if isDigit c then some .exp else none
  | .esign => if isDigit c then some .exp else none
  | .exp => if isDigit c then some .exp else none

/-- The lexer at the start of a token: the new state and the tokens completed. -/
def lexStart (c : Char) : Option (LexState × List Token) :=
  if isSpace c then some (.idle, [])
  else if c = '{' then some (.idle, [.lbrace])
  else if c = '}' then some (.idle, [.rbrace])
  else if c = '[' then some (.idle, [.lbrack])
  else if c = ']' then some (.idle, [.rbrack])
  else if c = ':' then some (.idle, [.colon])
  else if c = ',' then some (.idle, [.comma])
  else if c = '"' then some (.str [], [])
  else if c = '-' then some (.num .minus, [])
  else if c = '0' then some (.num .zero, [])
  else if isDigit c then some (.num .int, [])
  else if c = 't' then some (.lit ['r', 'u', 'e'] (.bool true), [])
  else if c = 'f' then some (.lit ['a', 'l', 's', 'e'] (.bool false), [])
  else if c = 'n' then some (.lit ['u', 'l', 'l'] .null, [])
  else none

/-- One step of the lexer; `none` is a syntax error. -/
def lexStep (st : LexState) (c : Char) : Option (LexState × List Token) :=
  match st with
  | .idle => lexStart c
  | .str acc =>
    if c = '"' then some (.idle, [.str acc.reverse])
    else if c = '\\' then some (.esc (c :: acc), [])
    else if c.toNat < 0x20 then none
    else some (.str (c :: acc), [])
  | .esc acc =>
    if c = 'u' then some (.hex (c :: acc) 0, [])
    else if c = '"' || c = '\\' || c = '/' || c = 'b' || c = 'f' || c = 'n' || c = 'r'
        || c = 't' then
      some (.str (c :: acc), [])
    else none
  | .hex acc n =>
    if isHex c then
      if n = 3 then some (.str (c :: acc), []) else some (.hex (c :: acc) (n + 1), [])
    else none
  | .num ns =>
    match ns.next c with
    | some ns' => some (.num ns', [])
    | none =>
      if ns.final then
        match lexStart c with
        | some (st', toks) => some (st', .num :: toks)
        | none => none
      else none
  | .lit rest v =>
    match rest with
    | [] => none
    | [r] => if c = r then some (.idle, [.lit v]) else none
    | r :: rs => if c = r then some (.lit rs v, []) else none

/-- The lexer over a whole text, from state `st`. -/
def lexFrom : LexState → List Char → Option (List Token)
  | .idle, [] => some []
  | .num ns, [] => if ns.final then some [.num] else none
  | _, [] => none
  | st, c :: cs =>
    match lexStep st c with
    | none => none
    | some (st', toks) =>
      match lexFrom st' cs with
      | none => none
      | some more => some (toks ++ more)

/-- The tokens of a text; `none` when it holds a lexical error. -/
def lex (s : String) : Option (List Token) := lexFrom .idle s.data

/-! ### Strings -/

/-- Value of a hexadecimal digit. -/
def hexVal (c : Char) : Nat :=
  if isDigit c then c.toNat - '0'.toNat
  else if 'a'.toNat ≤ c.toNat && c.toNat ≤ 'f'.toNat then c.toNat - 'a'.toNat + 10
  else c.toNat - 'A'.toNat + 10

/-- The character a one-letter escape stands for. -/
def escChar (c : Char) : Char :=
  if c = 'b' then Char.ofNat 8
  else if c = 'f' then Char.ofNat 12
  else if c = 'n' then '\n'
  else if c = 'r' then '\r'
  else if c = 't' then '\t'
  else c

/-- The replacement character U+FFFD. -/
def replacementChar : Char := Char.ofNat 0xFFFD

/-- Position inside a raw string while it is unquoted. -/
inductive UnquoteState where
  | plain
  | esc
  /-- After a backslash, `u` and `n` hexadecimal digits of value `val`. -/
  | hex (n : Nat) (val : Nat)
deriving Repr

/-- What a pending high surrogate becomes when no low surrogate follows it. -/
def flushPending : Option Nat → List Char
  | some _ => [replacementChar]
  | none => []

/-- The text a raw string token denotes.  `pend` holds the UTF-16 high
surrogate of the escape just read, if any: followed by the escape of a low
surrogate the two denote one character; every other surrogate escape denotes
U+FFFD. -/
def unquoteFrom : UnquoteState → Option Nat → List Char → List Char
  | _, pend, [] => flushPending pend
  | .plain, pend, c :: cs =>
    if c = '\\' then unquoteFrom .esc pend cs
    else flushPending pend ++ c :: unquoteFrom .plain none cs
  | .esc, pend, c :: cs =>
    if c = 'u' then unquoteFrom (.hex 0 0) pend cs
    else flushPending pend ++ escChar c :: unquoteFrom .plain none cs
  | .hex n val, pend, c :: cs =>
    let rr := val * 16 + hexVal c
    if n = 3 then
      match pend with
      | some hi =>
        if 0xDC00 ≤ rr ∧ rr < 0xE000 then
          Char.ofNat ((hi - 0xD800) * 0x400 + (rr - 0xDC00) + 0x10000)
            :: unquoteFrom .plain none cs
        else if 0xD800 ≤ rr ∧ rr < 0xDC00 then
          replacementChar :: unquoteFrom .plain (some rr) cs
        else
          replacementChar :: Char.ofNat rr :: unquoteFrom .plain none cs
      | none =>
        if 0xD800 ≤ rr ∧ rr < 0xDC00 then unquoteFrom .plain (some rr) cs
        else if 0xDC00 ≤ rr ∧ rr < 0xE000 then replacementChar :: unquoteFrom .plain none cs
        else Char.ofNat rr :: unquoteFrom .plain none cs
    else
      unquoteFrom (.hex (n + 1) rr) pend cs

/-- The text of a raw string token. -/
def unquote (raw : List Char) : String := ⟨unquoteFrom .plain none raw⟩

/-! ### Values -/

/-- An array or object under construction. -/
inductive Frame where
  /-- An array; `items` are the elements read so far, reversed. -/
  | arr (items : List Json)
  /-- An object; `fields` are the members read so far, reversed, and `key` is
  the name of the member whose value is being read. -/
  | obj (fields : List (String × Json)) (key : Option String)
deriving Repr

/-- What the parser may read next. -/
inductive Expect where
  /-- A value. -/
  | value
  /-- Right after an opening bracket: a value or the closing bracket. -/
  | valueOrClose
  /-- Right after an opening brace: a member name or the closing brace. -/
  | keyOrClose
  /-- After a comma inside an object: a member name. -/
  | key
  /-- After a member name: the colon. -/
  | colon
  /-- After a value inside an array or object: a comma or the closing token. -/
  | commaOrClose
  /-- After the top-level value: nothing. -/
  | done (v : Json)
deriving Repr

/-- State of the parser between two tokens. -/
structure ParseState where
  stack : List Frame
  expect : Expect
deriving Repr

/-- The limit `maxNestingDepth` of package `encoding/json`. -/
def maxNestingDepth : Nat := 10000

/-- A value `v` is complete: hand it to the enclosing array or object. -/
def complete (stack : List Frame) (v : Json) : Option ParseState :=
  match stack with
  | [] => some ⟨[], .done v⟩
  | .arr items :: st => some ⟨.arr (v :: items) :: st, .commaOrClose⟩
  | .obj fields (some k) :: st => some ⟨.obj ((k, v) :: fields) none :: st, .commaOrClose⟩
  | .obj _ none :: _ => none

/-- The parser where a value may start. -/
def parseValueStart (stack : List Frame) (t : Token) : Option ParseState :=
  match t with
  | .str raw => complete stack (.str (unquote raw))
  | .num => complete stack .num
  | .lit v => complete stack v
  | .lbrack =>
    if stack.length + 1 ≤ maxNestingDepth then some ⟨.arr [] :: stack, .valueOrClose⟩ else none
  | .lbrace =>
    if stack.length + 1 ≤ maxNestingDepth then some ⟨.obj [] none :: stack, .keyOrClose⟩
    else none
  | _ => none

/-- The closing token `t` ends the innermost array or object. -/
def parseClose (stack : List Frame) (t : Token) : Option ParseState :=
  match stack, t with
  | .arr items :: st, .rbrack => complete st (.arr items.reverse)
  | .obj fields none :: st, .rbrace => complete st (.obj fields.reverse)
  | _, _ => none

/-- A member name. -/
def parseKey (stack : List Frame) (t : Token) : Option ParseState :=
  match stack, t with
  | .obj fields none :: st, .str raw => some ⟨.obj fields (some (unquote raw)) :: st, .colon⟩
  | _, _ => none

/-- One step of the parser; `none` is a syntax error. -/
def parseStep (p : ParseState) (t : Token) : Option ParseState :=
  match p.expect with
  | .value => parseValueStart p.stack t
  | .valueOrClose =>
    match t with
    | .rbrack => parseClose p.stack t
    | _ => parseValueStart p.stack t
  | .keyOrClose =>
    match t with
    | .rbrace => parseClose p.stack t
    | _ => parseKey p.stack t
  | .key => parseKey p.stack t
  | .colon =>
    match t with
    | .colon => some ⟨p.stack, .value⟩
    | _ => none
  | .commaOrClose =>
    match t with
    | .comma =>
      match p.stack with
      | .arr _ :: _ => some ⟨p.stack, .value⟩
      | .obj _ _ :: _ => some ⟨p.stack, .key⟩
      | [] => none
    | _ => parseClose p.stack t
  | .done _ => none

/-- The parser over a token sequence, from state `p`. -/
def parseFrom : ParseState → List Token → Option Json
  | p, [] =>
    match p.expect with
    | .done v => some v
    | _ => none
  | p, t :: ts =>
    match parseStep p t with
    | none => none
    | some p' => parseFrom p' ts

/-- The value a JSON text denotes; `none` when the text is not valid JSON. -/
def parseJson (s : String) : Option Json :=
  match lex s with
  | none => none
  | some toks => parseFrom ⟨[], .value⟩ toks


/-! ### Decoding into `Response` -/

/-- Case folding of member names, as far as it can reach an ASCII letter:
lower-case ASCII letters, U+017F (long s) and U+212A (Kelvin sign). -/
def foldChar (c : Char) : Char :=
  if 'a'.toNat ≤ c.toNat ∧ c.toNat ≤ 'z'.toNat then Char.ofNat (c.toNat - 32)
  else if c.toNat = 0x17F then 'S'
  else if c.toNat = 0x212A then 'K'
  else c

/-- Whether the member name `key` selects the struct field tagged `name`:
an exact match or a match under case folding. -/
def matchesField (key name : String) : Bool :=
  key.data.map foldChar = name.data.map foldChar

/-- The members of an object, decoded one after the other into `cur`. -/
def decodeMembers {α : Type} (field : α → String → Json → Except String α) :
    α → List (String × Json) → Except String α
  | cur, [] => .ok cur
  | cur, (k, v) :: rest =>
    match field cur k v with
    | .error e => .error e
    | .ok next => decodeMembers field next rest

/-- A JSON value decoded into a Go `string` holding `cur`. -/
def decodeString (v : Json) (cur : String) : Except String String :=
  match v with
  | .null => .ok cur
  | .str s => .ok s
  | _ => .error "json: cannot unmarshal value into Go value of type string"

/-- A JSON value decoded into a `Delta` holding `cur`. -/
def decodeDelta (v : Json) (cur : Delta) : Except String Delta :=
  match v with
  | .null => .ok cur
  | .obj fields =>
    decodeMembers (fun (d : Delta) k x =>
      if matchesField k "content" then
        match decodeString x d.Content with
        | .error e => .error e
        | .ok s => .ok { d with Content := s }
      else .ok d) cur fields
  | _ => .error "json: cannot unmarshal value into Go value of type main.Delta"

/-- A JSON value decoded into a `Choice` holding `cur`. -/
def decodeChoice (v : Json) (cur : Choice) : Except String Choice :=
  match v with
  | .null => .ok cur
  | .obj fields =>
    decodeMembers (fun (c : Choice) k x =>
      if matchesField k "delta" then
        match decodeDelta x c.Delta with
        | .error e => .error e
        | .ok d => .ok { c with Delta := d }
      else .ok c) cur fields
  | _ => .error "json: cannot unmarshal value into Go value of type main.Choice"

/-- A Go slice of `Choice`: its elements, and the elements of its backing
array beyond its length, which keep the values written there earlier. -/
structure ChoiceSlice where
  items : List Choice := []
  spare : List Choice := []
deriving DecidableEq, Repr

/-- The elements of a JSON array, element `i` decoded into element `i` of the
backing array, or into a zero `Choice` beyond it. -/
def decodeElems : List Json → List Choice → Except String (List Choice)
  | [], _ => .ok []
  | v :: vs, backing =>
    match decodeChoice v (backing.headD {}) with
    | .error e => .error e
    | .ok c =>
      match decodeElems vs backing.tail with
      | .error e => .error e
      | .ok cs => .ok (c :: cs)

/-- A JSON value decoded into a `[]Choice` holding `cur`.  `null` and the
empty array give a slice without backing array. -/
def decodeChoices (v : Json) (cur : ChoiceSlice) : Except String ChoiceSlice :=
  match v with
  | .null => .ok {}
  | .arr [] => .ok {}
  | .arr items =>
    match decodeElems items (cur.items ++ cur.spare) with
    | .error e => .error e
    | .ok cs => .ok ⟨cs, (cur.items ++ cur.spare).drop cs.length⟩
  | _ => .error "json: cannot unmarshal value into Go value of type []main.Choice"

/-- A JSON value decoded into a zero `Response`. -/
def decodeResponse (v : Json) : Except String Response :=
  match v with
  | .null => .ok {}
  | .obj fields =>
    match decodeMembers (fun (s : ChoiceSlice) k x =>
        if matchesField k "choices" then decodeChoices x s else .ok s) {} fields with
    | .error e => .error e
    | .ok s => .ok ⟨s.items⟩
  | _ => .error "json: cannot unmarshal value into Go value of type main.Response"

/-- The text standing for the message of a `json.SyntaxError`. -/
def syntaxErrorText : String := "invalid JSON text"

/-- The call `json.Unmarshal([]byte(data), &response)` on a zero `response`:
the decoded value, or the text of the error.  The text of an error stands for
the message Go prints, which depends on the Go release; it tells a syntax
error from a type mismatch and no more. -/
def jsonUnmarshal (data : String) : Except String Response :=
  match parseJson data with
  | none => .error syntaxErrorText
  | some v => decodeResponse v

/-! ## Notions of the specification -/

/-- Specification: a decoder rejects the two payloads that the loop never
hands to it and that are not JSON texts, the empty text and `[DONE]`. -/
def RejectsNonJson (unmarshal : String → Except String Response) : Prop :=
  (∃ e, unmarshal "" = .error e) ∧ (∃ e, unmarshal "[DONE]" = .error e)

/-- Specification: `line` is a valid content-bearing data event carrying
`content`: it is `data: ` followed by a payload that decodes to a response
whose `choices` is not empty and whose `choices[0].delta.content` is the
non-empty string `content`. -/
def IsContentEvent (unmarshal : String → Except String Response)
    (line content : String) : Prop :=
  ∃ payload response choice rest,
    line = "data: " ++ payload ∧ unmarshal payload = .ok response ∧
    response.Choices = choice :: rest ∧ choice.Delta.Content = content ∧ content ≠ ""

/-- Specification: the content carried by `line` when it is a valid
content-bearing data event, computed. -/
def eventContent (unmarshal : String → Except String Response) (line : String) :
    Option String :=
  if "data: ".data <+: line.data then
    match unmarshal ⟨line.data.drop 6⟩ with
    | .ok ⟨choice :: _⟩ => if choice.Delta.Content = "" then none else some choice.Delta.Content
    | _ => none
  else none

/-- Specification: a text without its unterminated last line, that is without
the characters that follow its last line feed. -/
def completeLines (s : String) : String :=
  ⟨s.data.rdropWhile (fun c => c != '\n')⟩

/-- Specification: the API key the program uses, the flag value when it is
not empty and the value of the environment variable otherwise. -/
def resolvedKey (flagKey envKey : String) : String :=
  if flagKey ≠ "" then flagKey else envKey

/-- Specification: the fixed code-only instruction. -/
def codeOnlyInstruction : String :=
  "You are a code-only assistant. Return ONLY the code without any explanations, backticks, or markdown formatting. Do not include any text before or after the code."

/-- Specification: the code-only part `P(b)` of the prompt. -/
def codePrefix (codeOnly : Bool) : String :=
  if codeOnly then codeOnlyInstruction ++ "\n\n" else ""

/-- Specification: the context part `C(c)` of the prompt. -/
def contextPrefix (context : String) : String :=
  if context ≠ "" then context ++ "\n\n" else ""

/-! ## A sample environment -/

/-- A stand-in for `json.Marshal` used to run `main` on literal input: the
model and the messages, one per line.  It is not the encoding Go produces. -/
def sampleMarshal (r : Request) : Except String String :=
  .ok (concat (r.Model :: r.Messages.map (fun m => "\n" ++ m.Role ++ ": " ++ m.Content)))

/-- A world to run `main` on literal input: standard input is a pipe holding
`stdin`, and every request is answered by `resp`. -/
def sampleWorld (flags : Flags) (envKey stdin : String) (resp : HttpResponse) : World :=
  { flags := flags
    getenv := fun name => if name = "OPENAI_API_KEY" then envKey else ""
    stdinStat := some false
    stdin := { content := stdin }
    marshal := sampleMarshal
    httpDo := fun _ => .ok resp
    unmarshal := jsonUnmarshal }

/-! ## Lemmas on strings and traces -/

theorem hasPrefix_iff (s pre : String) : hasPrefix s pre = true ↔ ∃ t : String, s = pre ++ t := by
  unfold hasPrefix
  rw [List.isPrefixOf_iff_prefix]
  constructor
  · rintro ⟨t, ht⟩
    exact ⟨⟨t⟩, String.ext (by simp [String.data_append, ht])⟩
  · rintro ⟨t, rfl⟩
    exact ⟨t.data, by simp [String.data_append]⟩

theorem hasPrefix_append (pre t : String) : hasPrefix (pre ++ t) pre = true :=
  (hasPrefix_iff _ _).2 ⟨t, rfl⟩

theorem trimPrefix_append (pre t : String) : trimPrefix (pre ++ t) pre = t := by
  unfold trimPrefix
  rw [if_pos (hasPrefix_append pre t)]
  exact String.ext (by simp [String.data_append])

theorem stdoutWrites_append (a b : List Event) :
    stdoutWrites (a ++ b) = stdoutWrites a ++ stdoutWrites b := by
  induction a with
  | nil => rfl
  | cons e es ih => cases e <;> simp [stdoutWrites, ih]

theorem stderrWrites_append (a b : List Event) :
    stderrWrites (a ++ b) = stderrWrites a ++ stderrWrites b := by
  induction a with
  | nil => rfl
  | cons e es ih => cases e <;> simp [stderrWrites, ih]

theorem requestsSent_append (a b : List Event) :
    requestsSent (a ++ b) = requestsSent a ++ requestsSent b := by
  induction a with
  | nil => rfl
  | cons e es ih => cases e <;> simp [requestsSent, ih]

theorem concat_append (a b : List String) : concat (a ++ b) = concat a ++ concat b := by
  induction a with
  | nil => exact String.ext (by simp [concat, String.data_append])
  | cons s ss ih => simp [concat, ih, String.append_assoc]

/-! ## Lemmas on the decode loop -/

/-- The loop treats each line on its own: no line ends it. -/
theorem decodeLoop_cons (u : String → Except String Response) (line : String)
    (rest : List String) :
    decodeLoop u (line :: rest) = decodeLoop u [line] ++ decodeLoop u rest := by
  simp only [decodeLoop]
  split
  · simp
  · split
    · simp
    · split
      · simp
      · split
        · split <;> simp
        · simp

theorem decodeLoop_append (u : String → Except String Response) (a b : List String) :
    decodeLoop u (a ++ b) = decodeLoop u a ++ decodeLoop u b := by
  induction a with
  | nil => simp [decodeLoop]
  | cons l ls ih =>
    rw [List.cons_append, decodeLoop_cons, ih, decodeLoop_cons u l ls, List.append_assoc]

/-- A line without the prefix `data: ` leaves no trace. -/
theorem decodeLoop_noPrefix (u : String → Except String Response) (line : String)
    (h : hasPrefix line "data: " = false) : decodeLoop u [line] = [] := by
  simp [decodeLoop, h]

/-- What the loop does with a data line, by its payload. -/
theorem decodeLoop_data (u : String → Except String Response) (p : String) :
    decodeLoop u ["data: " ++ p] =
      if p = "" ∨ p = "[DONE]" then []
      else
        match u p with
        | .error err => [.stderr ("Error decoding response: " ++ err ++ "\n")]
        | .ok ⟨[]⟩ => []
        | .ok ⟨c :: _⟩ => if c.Delta.Content = "" then [] else [.stdout c.Delta.Content] := by
  simp only [decodeLoop, hasPrefix_append, trimPrefix_append]
  simp only [Bool.not_true, Bool.false_eq_true, if_false]
  split
  · rfl
  · cases hu : u p with
    | error e => rfl
    | ok r =>
      obtain ⟨cs⟩ := r
      cases cs with
      | nil => simp
      | cons c cs => by_cases hc : c.Delta.Content = "" <;> simp [hc]

/-! ## Lemmas on the specification notions -/

theorem eventContent_data (u : String → Except String Response) (p : String) :
    eventContent u ("data: " ++ p) =
      match u p with
      | .ok ⟨c :: _⟩ => if c.Delta.Content = "" then none else some c.Delta.Content
      | _ => none := by
  have h1 : "data: ".data <+: ("data: " ++ p).data := ⟨p.data, by simp [String.data_append]⟩
  have h2 : (⟨("data: " ++ p).data.drop 6⟩ : String) = p :=
    String.ext (by simp [String.data_append])
  unfold eventContent
  rw [if_pos h1, h2]

theorem eventContent_noPrefix (u : String → Except String Response) (line : String)
    (h : hasPrefix line "data: " = false) : eventContent u line = none := by
  unfold eventContent
  rw [if_neg]
  intro hp
  have := List.isPrefixOf_iff_prefix.2 hp
  unfold hasPrefix at h
  simp [h] at this

theorem eventContent_iff (u : String → Except String Response) (line c : String) :
    eventContent u line = some c ↔ IsContentEvent u line c := by
  constructor
  · intro h
    cases hp : hasPrefix line "data: " with
    | false => rw [eventContent_noPrefix u line hp] at h; cases h
    | true =>
      obtain ⟨p, rfl⟩ := (hasPrefix_iff _ _).1 hp
      rw [eventContent_data] at h
      cases hu : u p with
      | error e => simp [hu] at h
      | ok r =>
        obtain ⟨cs⟩ := r
        cases cs with
        | nil => simp [hu] at h
        | cons ch rest =>
          simp only [hu] at h
          by_cases hc : ch.Delta.Content = ""
          · simp [hc] at h
          · simp only [hc, if_false, Option.some.injEq] at h
            exact ⟨p, ⟨ch :: rest⟩, ch, rest, rfl, hu, rfl, h, h ▸ hc⟩
  · rintro ⟨p, r, ch, rest, rfl, hu, hr, hc, hne⟩
    obtain ⟨cs⟩ := r
    simp only at hr
    subst hr
    rw [eventContent_data, hu]
    simp only
    rw [hc, if_neg hne]

/-- Under a decoder that rejects the two non-JSON payloads, the writes a line
causes on standard output are the content it carries as an event. -/
theorem stdoutWrites_decodeLoop_line (u : String → Except String Response)
    (hu : RejectsNonJson u) (line : String) :
    stdoutWrites (decodeLoop u [line]) = (eventContent u line).toList := by
  cases hp : hasPrefix line "data: " with
  | false => rw [decodeLoop_noPrefix u line hp, eventContent_noPrefix u line hp]; rfl
  | true =>
    obtain ⟨p, rfl⟩ := (hasPrefix_iff _ _).1 hp
    rw [decodeLoop_data, eventContent_data]
    obtain ⟨⟨e1, h1⟩, ⟨e2, h2⟩⟩ := hu
    by_cases hd : p = "" ∨ p = "[DONE]"
    · rw [if_pos hd]
      rcases hd with rfl | rfl
      · rw [h1]; rfl
      · rw [h2]; rfl
    · rw [if_neg hd]
      cases hup : u p with
      | error e => rfl
      | ok r =>
        obtain ⟨cs⟩ := r
        cases cs with
        | nil => rfl
        | cons ch rest =>
          by_cases hc : ch.Delta.Content = "" <;> simp [hc, stdoutWrites]

theorem stdoutWrites_decodeLoop (u : String → Except String Response)
    (hu : RejectsNonJson u) (lines : List String) :
    stdoutWrites (decodeLoop u lines) = lines.filterMap (eventContent u) := by
  induction lines with
  | nil => rfl
  | cons l ls ih =>
    rw [decodeLoop_cons, stdoutWrites_append, ih, stdoutWrites_decodeLoop_line u hu]
    cases h : eventContent u l <;> simp [List.filterMap_cons, h]

/-! ## Lemmas on the stdin loop -/

theorem dropWhile_cons_newline {buf rest : List Char} {delim : Char}
    (h : buf.dropWhile (fun c => c != '\n') = delim :: rest) :
    delim = '\n' ∧ buf = buf.takeWhile (fun c => c != '\n') ++ ['\n'] ++ rest
      ∧ '\n' ∉ buf.takeWhile (fun c => c != '\n') := by
  induction buf with
  | nil => simp at h
  | cons c cs ih =>
    by_cases hc : c = '\n'
    · subst hc
      simp only [List.dropWhile_cons, bne_self_eq_false, Bool.false_eq_true, if_false,
        List.cons.injEq] at h
      simp [List.takeWhile_cons, ← h.1, ← h.2]
    · have hb : (c != '\n') = true := by simpa using hc
      rw [List.dropWhile_cons, if_pos hb] at h
      obtain ⟨h1, h2, h3⟩ := ih h
      rw [List.takeWhile_cons, if_pos hb]
      refine ⟨h1, ?_, ?_⟩
      · rw [List.cons_append, List.cons_append, ← h2]
      · simp only [List.mem_cons, not_or]
        exact ⟨fun hh => hc hh.symm, h3⟩

theorem dropWhile_nil_newline {buf : List Char}
    (h : buf.dropWhile (fun c => c != '\n') = []) : '\n' ∉ buf := by
  intro hm
  rw [List.dropWhile_eq_nil_iff] at h
  simpa using h _ hm

theorem rdropWhile_noNewline {buf : List Char} (h : '\n' ∉ buf) :
    buf.rdropWhile (fun c => c != '\n') = [] := by
  rw [List.rdropWhile_eq_nil_iff]
  intro c hc
  simp only [bne_iff_ne, ne_eq]
  rintro rfl
  exact h hc

theorem rdropWhile_line (x rest : List Char) :
    (x ++ ['\n'] ++ rest).rdropWhile (fun c => c != '\n')
      = x ++ ['\n'] ++ rest.rdropWhile (fun c => c != '\n') := by
  induction rest using List.reverseRecOn with
  | nil =>
    rw [List.append_nil, List.rdropWhile_nil, List.append_nil]
    exact List.rdropWhile_concat_neg (fun c => c != '\n') x '\n' (by simp)
  | append_singleton r c ih =>
    rw [← List.append_assoc]
    by_cases hc : (c != '\n') = true
    · rw [List.rdropWhile_concat_pos (fun c => c != '\n') _ c hc,
        List.rdropWhile_concat_pos (fun c => c != '\n') _ c hc, ih]
    · rw [List.rdropWhile_concat_neg (fun c => c != '\n') _ c hc,
        List.rdropWhile_concat_neg (fun c => c != '\n') _ c hc, List.append_assoc]

theorem readLoop_none (failure : Option String) (buf : List Char) (acc : String)
    (hs : buf.dropWhile (fun c => c != '\n') = []) :
    readLoop failure buf acc =
      ([.stdinRead], match failure with | none => .ok acc | some e => .error e) := by
  have hread : readString buf failure
      = (⟨buf⟩, some (match failure with | none => .eof | some e => .other e), []) := by
    simp [readString, hs]
  rw [readLoop]
  cases failure with
  | none =>
    split <;> rename_i heq <;> rw [hread] at heq <;> simp at heq
  | some e =>
    split <;> rename_i heq <;> rw [hread] at heq <;> simp at heq
    rw [heq.2.1]

theorem readLoop_some (failure : Option String) (buf : List Char) (acc : String)
    (delim : Char) (rest : List Char)
    (hs : buf.dropWhile (fun c => c != '\n') = delim :: rest) :
    readLoop failure buf acc =
      (.stdinRead ::
          (readLoop failure rest (acc ++ ⟨buf.takeWhile (fun c => c != '\n') ++ [delim]⟩)).1,
        (readLoop failure rest (acc ++ ⟨buf.takeWhile (fun c => c != '\n') ++ [delim]⟩)).2) := by
  have hread : readString buf failure
      = (⟨buf.takeWhile (fun c => c != '\n') ++ [delim]⟩, none, rest) := by
    simp [readString, hs]
  rw [readLoop]
  split <;> rename_i heq <;> rw [hread] at heq <;> simp at heq
  obtain ⟨h1, h2⟩ := heq
  subst h1 h2
  rfl

/-- The stdin loop, in closed form: one read per line feed and one more, and
the text up to the last line feed. -/
theorem readLoop_eq (failure : Option String) (buf : List Char) (acc : String) :
    readLoop failure buf acc =
      (List.replicate (buf.count '\n' + 1) .stdinRead,
        match failure with
        | none => .ok (acc ++ ⟨buf.rdropWhile (fun c => c != '\n')⟩)
        | some e => .error e) := by
  generalize h : buf.length = n
  induction n using Nat.strong_induction_on generalizing buf acc with
  | _ n ih =>
    cases hs : buf.dropWhile (fun c => c != '\n') with
    | nil =>
      have hn := dropWhile_nil_newline hs
      rw [readLoop_none failure buf acc hs, List.count_eq_zero_of_not_mem hn,
        rdropWhile_noNewline hn]
      cases failure with
      | none =>
        simp only [List.replicate, Prod.mk.injEq, true_and, Except.ok.injEq]
        exact String.ext (by simp [String.data_append])
      | some e => rfl
    | cons delim rest =>
      obtain ⟨hd, hx2, hx3⟩ := dropWhile_cons_newline hs
      subst hd
      have hlen : rest.length < n := by
        rw [← h]
        conv_rhs => rw [hx2]
        simp
        omega
      rw [readLoop_some failure buf acc '\n' rest hs, ih rest.length hlen rest _ rfl]
      have hcount : buf.count '\n' = rest.count '\n' + 1 := by
        conv_lhs => rw [hx2]
        rw [List.count_append, List.count_append, List.count_eq_zero_of_not_mem hx3]
        simp
        omega
      have hdrop : buf.rdropWhile (fun c => c != '\n')
          = buf.takeWhile (fun c => c != '\n') ++ ['\n']
            ++ rest.rdropWhile (fun c => c != '\n') := by
        conv_lhs => rw [hx2]
        exact rdropWhile_line _ _
      rw [hcount, hdrop]
      cases failure with
      | none =>
        simp only [Prod.mk.injEq, Except.ok.injEq]
        refine ⟨by simp [List.replicate_succ], ?_⟩
        apply String.ext
        simp only [String.data_append, List.append_assoc]
      | some e => simp [List.replicate_succ]

/-- A text has no unterminated last line exactly when it is empty or ends
with a line feed. -/
theorem completeLines_eq_self_iff (s : String) :
    completeLines s = s ↔ (s = "" ∨ s.data.getLast? = some '\n') := by
  have hdata : completeLines s = s ↔ s.data.rdropWhile (fun c => c != '\n') = s.data := by
    constructor
    · intro h
      exact congrArg String.data h
    · intro h
      exact String.ext h
  rw [hdata, List.rdropWhile_eq_self_iff]
  constructor
  · intro h
    by_cases hnil : s.data = []
    · exact Or.inl (String.ext hnil)
    · right
      have := h hnil
      rw [List.getLast?_eq_getLast _ hnil]
      simpa using this
  · rintro (h | h) hl
    · exact absurd (congrArg String.data h) hl
    · rw [List.getLast?_eq_getLast _ hl] at h
      simp only [Option.some.injEq] at h
      simp [h]

theorem readInput_eq (stdin : Stdin) :
    readInput stdin =
      (List.replicate (stdin.content.data.count '\n' + 1) .stdinRead,
        match stdin.failure with
        | none => .ok (completeLines stdin.content)
        | some e => .error e) := by
  unfold readInput
  rw [readLoop_eq]
  cases stdin.failure with
  | none =>
    simp only [completeLines, Prod.mk.injEq, true_and, Except.ok.injEq]
    exact String.ext (by simp [String.data_append])
  | some e => rfl

/-! ## Lemmas on `main` -/

theorem requestsSent_replicate (n : Nat) :
    requestsSent (List.replicate n Event.stdinRead) = [] := by
  induction n with
  | zero => rfl
  | succ n ih => simp [List.replicate_succ, requestsSent, ih]

theorem requestsSent_decodeLoop (u : String → Except String Response) (lines : List String) :
    requestsSent (decodeLoop u lines) = [] := by
  induction lines with
  | nil => rfl
  | cons l ls ih =>
    rw [decodeLoop_cons, requestsSent_append, ih, List.append_nil]
    simp only [decodeLoop]
    split
    · rfl
    · split
      · rfl
      · split
        · rfl
        · split
          · split <;> rfl
          · rfl

theorem requestsSent_handleResponse (u : String → Except String Response)
    (resp : HttpResponse) : requestsSent (handleResponse u resp).trace = [] := by
  unfold handleResponse
  split
  · rfl
  · unfold processStream
    split <;> simp [requestsSent_append, requestsSent_decodeLoop, requestsSent]

/-- The requests `main` sends once the key is known: one request, when
standard input is a pipe, is read without error, and the request marshals;
none otherwise. -/
theorem requestsSent_mainWithKey (w : World) (key : String) :
    requestsSent (mainWithKey w key).trace =
      match w.stdinStat, (readInput w.stdin).2 with
      | some false, .ok input =>
        match w.marshal (buildRequest w.flags.model
            (buildPrompt w.flags.context w.flags.codeOnly input)) with
        | .ok body => [buildHttpRequest body key]
        | .error _ => []
      | _, _ => [] := by
  unfold mainWithKey
  have hreads : requestsSent (readInput w.stdin).1 = [] := by
    rw [readInput_eq]; exact requestsSent_replicate _
  cases hstat : w.stdinStat with
  | none => rfl
  | some b =>
    cases b with
    | true => rfl
    | false =>
      simp only
      cases hin : (readInput w.stdin).2 with
      | error e => simp [requestsSent, requestsSent_append, hreads]
      | ok input =>
        simp only
        cases hm : w.marshal (buildRequest w.flags.model
            (buildPrompt w.flags.context w.flags.codeOnly input)) with
        | error e => simp [requestsSent, requestsSent_append, hreads]
        | ok body =>
          simp only
          cases hd : w.httpDo (buildHttpRequest body key) with
          | error e => simp [requestsSent, requestsSent_append, hreads]
          | ok resp =>
            simp [requestsSent, requestsSent_append, hreads, requestsSent_handleResponse]

/-- The key `main` goes on with is the resolved key, and it is not empty. -/
theorem main_eq_mainWithKey (w : World)
    (h : resolvedKey w.flags.apiKey (w.getenv "OPENAI_API_KEY") ≠ "") :
    main w = mainWithKey w (resolvedKey w.flags.apiKey (w.getenv "OPENAI_API_KEY")) := by
  unfold main resolvedKey
  unfold resolvedKey at h
  by_cases hf : w.flags.apiKey = ""
  · simp only [hf, ne_eq, not_true_eq_false, if_false, if_true] at h ⊢
    rw [if_neg h]
  · simp only [hf, ne_eq, not_false_eq_true, if_true, if_false]

theorem main_noKey (w : World) (hf : w.flags.apiKey = "")
    (he : w.getenv "OPENAI_API_KEY" = "") :
    main w = ⟨[.stderr "Error: OpenAI API key must be provided either via --api-key or OPENAI_API_KEY environment variable\n"], 1⟩ := by
  unfold main
  simp [hf, he]

/-- Every request `main` sends is the one assembled from the resolved key and
the marshalled request built from the flags and the text read from standard
input. -/
theorem mem_requestsSent_main (w : World) (req : HttpRequest)
    (h : req ∈ requestsSent (main w).trace) :
    ∃ input body,
      (readInput w.stdin).2 = .ok input
      ∧ w.marshal (buildRequest w.flags.model
          (buildPrompt w.flags.context w.flags.codeOnly input)) = .ok body
      ∧ req = buildHttpRequest body (resolvedKey w.flags.apiKey (w.getenv "OPENAI_API_KEY")) := by
  by_cases hk : resolvedKey w.flags.apiKey (w.getenv "OPENAI_API_KEY") = ""
  · have hf : w.flags.apiKey = "" := by
      unfold resolvedKey at hk
      by_contra hf
      simp [hf] at hk
    have he : w.getenv "OPENAI_API_KEY" = "" := by
      unfold resolvedKey at hk
      simpa [hf] using hk
    rw [main_noKey w hf he] at h
    simp [requestsSent] at h
  · rw [main_eq_mainWithKey w hk, requestsSent_mainWithKey] at h
    cases hstat : w.stdinStat with
    | none => simp [hstat] at h
    | some b =>
      cases b with
      | true => simp [hstat] at h
      | false =>
        cases hin : (readInput w.stdin).2 with
        | error e => simp [hstat, hin] at h
        | ok input =>
          cases hm : w.marshal (buildRequest w.flags.model
              (buildPrompt w.flags.context w.flags.codeOnly input)) with
          | error e => simp [hstat, hin, hm] at h
          | ok body =>
            simp only [hstat, hin, hm, List.mem_singleton] at h
            exact ⟨input, body, rfl, hm, h⟩

theorem buildPrompt_eq (c : String) (b : Bool) (s : String) :
    buildPrompt c b s = codePrefix b ++ contextPrefix c ++ s := by
  have hlit : "You are a code-only assistant. Return ONLY the code without any explanations, backticks, or markdown formatting. Do not include any text before or after the code.\n\n"
      = codeOnlyInstruction ++ "\n\n" := by rfl
  have hnil : ∀ t : String, "" ++ t = t := fun t => String.ext (by simp [String.data_append])
  unfold buildPrompt codePrefix contextPrefix
  cases b <;> by_cases hc : c = "" <;>
    simp [hc, hlit, hnil, String.append_assoc]

theorem header_authorization (body key : String) :
    (buildHttpRequest body key).header "Authorization" = "Bearer " ++ key := by
  simp [buildHttpRequest, HttpRequest.setHeader, HttpRequest.header, List.find?]

theorem stdoutWrites_readInput (stdin : Stdin) : stdoutWrites (readInput stdin).1 = [] := by
  rw [readInput_eq]
  generalize stdin.content.data.count '\n' + 1 = n
  induction n with
  | zero => rfl
  | succ n ih => simp [List.replicate_succ, stdoutWrites, ih]

/-- The whole of `main` on the path where nothing fails before the response
arrives. -/
theorem main_ok (w : World) (key input body : String) (resp : HttpResponse)
    (hkey : resolvedKey w.flags.apiKey (w.getenv "OPENAI_API_KEY") = key) (hne : key ≠ "")
    (hstat : w.stdinStat = some false) (hin : (readInput w.stdin).2 = .ok input)
    (hm : w.marshal (buildRequest w.flags.model
      (buildPrompt w.flags.context w.flags.codeOnly input)) = .ok body)
    (hd : w.httpDo (buildHttpRequest body key) = .ok resp) :
    main w =
      ⟨.stdinStat :: (readInput w.stdin).1
          ++ .httpDo (buildHttpRequest body key) :: (handleResponse w.unmarshal resp).trace,
        (handleResponse w.unmarshal resp).exitCode⟩ := by
  subst hkey
  rw [main_eq_mainWithKey w hne]
  unfold mainWithKey
  simp only [hstat, hin, hm, hd]

/-- On that path standard output receives what the handling of the response
writes, and nothing else. -/
theorem stdoutWrites_main_ok (w : World) (key input body : String) (resp : HttpResponse)
    (hkey : resolvedKey w.flags.apiKey (w.getenv "OPENAI_API_KEY") = key) (hne : key ≠ "")
    (hstat : w.stdinStat = some false) (hin : (readInput w.stdin).2 = .ok input)
    (hm : w.marshal (buildRequest w.flags.model
      (buildPrompt w.flags.context w.flags.codeOnly input)) = .ok body)
    (hd : w.httpDo (buildHttpRequest body key) = .ok resp) :
    stdoutWrites (main w).trace = stdoutWrites (handleResponse w.unmarshal resp).trace := by
  rw [main_ok w key input body resp hkey hne hstat hin hm hd]
  show stdoutWrites (Event.stdinStat :: ((readInput w.stdin).1
    ++ Event.httpDo (buildHttpRequest body key) :: (handleResponse w.unmarshal resp).trace)) = _
  simp [stdoutWrites, stdoutWrites_append, stdoutWrites_readInput]

/-- The outcome of the stream processing is never the outcome of the status
check: the two error messages differ. -/
theorem processStream_ne_apiError (u : String → Except String Response)
    (lines : List String) (scanErr : Option String) (code body : String) :
    processStream u lines scanErr
      ≠ ⟨[.stderr ("Error from API (status " ++ code ++ "): " ++ body ++ "\n")], 1⟩ := by
  intro h
  unfold processStream at h
  cases scanErr with
  | none =>
    have := congrArg Outcome.exitCode h
    simp at this
  | some e =>
    have ht := congrArg Outcome.trace h
    simp only at ht
    have hr := congrArg List.reverse ht
    simp only [List.reverse_append, List.reverse_cons, List.reverse_nil, List.nil_append,
      List.singleton_append, List.cons.injEq, Event.stderr.injEq] at hr
    have hlast := hr.1
    have h1 : hasPrefix ("Error reading response: " ++ e ++ "\n") "Error r" = true :=
      (hasPrefix_iff _ _).2 ⟨"eading response: " ++ e ++ "\n", by
        simp only [← String.append_assoc]; rfl⟩
    have h2 : hasPrefix ("Error from API (status " ++ code ++ "): " ++ body ++ "\n") "Error r"
        = false := by
      unfold hasPrefix
      simp only [String.data_append]
      rfl
    rw [hlast, h2] at h1
    cases h1

/-! ## Claims -/

/-- Claim C1.  For every sequence of response lines, under a JSON decoder (one
that rejects the empty text and `[DONE]`), the decode loop writes to standard
output exactly the `delta.content` values of the valid content-bearing data
events among the lines, one write per event and in line order: the number of
writes is the number N of such events, and the concatenation of what is
written is the concatenation of those contents.  A line is such an event when
it is `data: ` followed by a payload that decodes to a response with a
non-empty `choices` and a non-empty `choices[0].delta.content`. -/
theorem decodeLoop_emits_content_events (unmarshal : String → Except String Response)
    (hjson : RejectsNonJson unmarshal) (lines : List String) :
    stdoutWrites (decodeLoop unmarshal lines) = lines.filterMap (eventContent unmarshal)
    ∧ (stdoutWrites (decodeLoop unmarshal lines)).length
        = (lines.filter (fun l => (eventContent unmarshal l).isSome)).length
    ∧ concat (stdoutWrites (decodeLoop unmarshal lines))
        = concat (lines.filterMap (eventContent unmarshal))
    ∧ (∀ line content,
        eventContent unmarshal line = some content ↔ IsContentEvent unmarshal line content) := by
  have h := stdoutWrites_decodeLoop unmarshal hjson lines
  refine ⟨h, ?_, by rw [h], eventContent_iff unmarshal⟩
  rw [h]
  clear h
  induction lines with
  | nil => rfl
  | cons l ls ih =>
    cases hl : eventContent unmarshal l <;> simp [List.filterMap_cons, List.filter_cons, hl, ih]

/-- Witness for claim C1: four lines, two of them content events, with a
role-only delta before them and a keep-alive comment between them. -/
theorem decodeLoop_emits_content_events_witness :
    RejectsNonJson jsonUnmarshal
    ∧ stdoutWrites (decodeLoop jsonUnmarshal
        ["data: \x7b\"choices\":[\x7b\"delta\":\x7b\"role\":\"assistant\"\x7d\x7d]\x7d",
         "data: \x7b\"choices\":[\x7b\"delta\":\x7b\"content\":\"Hel\"\x7d\x7d]\x7d",
         ": keep-alive",
         "data: \x7b\"choices\":[\x7b\"delta\":\x7b\"content\":\"lo\"\x7d\x7d]\x7d"]) = ["Hel", "lo"] :=
  ⟨⟨⟨_, rfl⟩, ⟨_, rfl⟩⟩,
   (decodeLoop_emits_content_events jsonUnmarshal ⟨⟨_, rfl⟩, ⟨_, rfl⟩⟩ _).1.trans (by rfl)⟩

/-- Counterexample to claim C2 as stated: with nothing before the sentinel and
the content event `data: {"choices":[{"delta":{"content":"late"}}]}` after it,
the loop still reads the later line and writes its content, whereas decoding
the lines before the sentinel writes nothing. -/
theorem done_sentinel_does_not_halt :
    decodeLoop jsonUnmarshal
        ([] ++ ["data: [DONE]"]
          ++ ["data: \x7b\"choices\":[\x7b\"delta\":\x7b\"content\":\"late\"\x7d\x7d]\x7d"])
      = [.stdout "late"]
    ∧ decodeLoop jsonUnmarshal [] = [] :=
  ⟨by rfl, by rfl⟩

/-- Claim C2, amended.  A line `data: [DONE]` is skipped: it yields no
fragment and no error report, and the loop goes on with the lines after it.
Decoding `pre ++ ["data: [DONE]"] ++ post` leaves the trace of decoding `pre`
followed by the trace of decoding `post`, that is the trace of decoding
`pre ++ post`, and the whole stream processing ends the same way. -/
theorem done_sentinel_is_skipped (unmarshal : String → Except String Response)
    (pre post : List String) (scanErr : Option String) :
    decodeLoop unmarshal ["data: [DONE]"] = []
    ∧ decodeLoop unmarshal (pre ++ ["data: [DONE]"] ++ post)
        = decodeLoop unmarshal pre ++ decodeLoop unmarshal post
    ∧ decodeLoop unmarshal (pre ++ ["data: [DONE]"] ++ post)
        = decodeLoop unmarshal (pre ++ post)
    ∧ processStream unmarshal (pre ++ ["data: [DONE]"] ++ post) scanErr
        = processStream unmarshal (pre ++ post) scanErr := by
  have h0 : decodeLoop unmarshal ["data: [DONE]"] = [] := by
    have := decodeLoop_data unmarshal "[DONE]"
    simpa using this
  have h1 : decodeLoop unmarshal (pre ++ ["data: [DONE]"] ++ post)
      = decodeLoop unmarshal pre ++ decodeLoop unmarshal post := by
    rw [decodeLoop_append, decodeLoop_append, h0, List.append_nil]
  refine ⟨h0, h1, ?_, ?_⟩
  · rw [h1, decodeLoop_append]
  · unfold processStream
    rw [h1, decodeLoop_append]

/-- Claim C3.  A data line whose payload is not empty, is not `[DONE]` and
fails to decode is a recoverable error: in `pre ++ [bad] ++ post` it
contributes exactly one report on standard error and nothing on standard
output, the lines of `post` are decoded as if it were absent, and the exit
status is unchanged (0 when the stream ends cleanly). -/
theorem malformed_line_is_recoverable (unmarshal : String → Except String Response)
    (pre post : List String) (p err : String)
    (hne : p ≠ "") (hdone : p ≠ "[DONE]") (hbad : unmarshal p = .error err) :
    decodeLoop unmarshal (pre ++ ["data: " ++ p] ++ post)
        = decodeLoop unmarshal pre
          ++ [.stderr ("Error decoding response: " ++ err ++ "\n")]
          ++ decodeLoop unmarshal post
    ∧ stdoutWrites (decodeLoop unmarshal (pre ++ ["data: " ++ p] ++ post))
        = stdoutWrites (decodeLoop unmarshal pre) ++ stdoutWrites (decodeLoop unmarshal post)
    ∧ stderrWrites (decodeLoop unmarshal (pre ++ ["data: " ++ p] ++ post))
        = stderrWrites (decodeLoop unmarshal pre)
          ++ ["Error decoding response: " ++ err ++ "\n"]
          ++ stderrWrites (decodeLoop unmarshal post)
    ∧ (processStream unmarshal (pre ++ ["data: " ++ p] ++ post) none).exitCode = 0
    ∧ (∀ scanErr, (processStream unmarshal (pre ++ ["data: " ++ p] ++ post) scanErr).exitCode
        = (processStream unmarshal (pre ++ post) scanErr).exitCode) := by
  have h0 : decodeLoop unmarshal ["data: " ++ p]
      = [.stderr ("Error decoding response: " ++ err ++ "\n")] := by
    rw [decodeLoop_data, if_neg (by simp [hne, hdone]), hbad]
  have h1 : decodeLoop unmarshal (pre ++ ["data: " ++ p] ++ post)
      = decodeLoop unmarshal pre
        ++ [.stderr ("Error decoding response: " ++ err ++ "\n")]
        ++ decodeLoop unmarshal post := by
    rw [decodeLoop_append, decodeLoop_append, h0]
  refine ⟨h1, ?_, ?_, rfl, ?_⟩
  · rw [h1, stdoutWrites_append, stdoutWrites_append]
    simp [stdoutWrites]
  · rw [h1, stderrWrites_append, stderrWrites_append]
    simp [stderrWrites]
  · intro scanErr
    cases scanErr <;> rfl

/-- Witness for claim C3: the line `data: {malformed json` between the content
events of `a` and of `b`. -/
theorem malformed_line_is_recoverable_witness :
    "\x7bmalformed json" ≠ "" ∧ "\x7bmalformed json" ≠ "[DONE]"
    ∧ jsonUnmarshal "\x7bmalformed json" = .error syntaxErrorText
    ∧ decodeLoop jsonUnmarshal
        (["data: \x7b\"choices\":[\x7b\"delta\":\x7b\"content\":\"a\"\x7d\x7d]\x7d"]
          ++ ["data: " ++ "\x7bmalformed json"]
          ++ ["data: \x7b\"choices\":[\x7b\"delta\":\x7b\"content\":\"b\"\x7d\x7d]\x7d"])
      = [.stdout "a", .stderr ("Error decoding response: " ++ syntaxErrorText ++ "\n"),
          .stdout "b"] :=
  ⟨by decide, by decide, rfl,
   (malformed_line_is_recoverable jsonUnmarshal
      ["data: \x7b\"choices\":[\x7b\"delta\":\x7b\"content\":\"a\"\x7d\x7d]\x7d"]
      ["data: \x7b\"choices\":[\x7b\"delta\":\x7b\"content\":\"b\"\x7d\x7d]\x7d"]
      "\x7bmalformed json" syntaxErrorText (by decide) (by decide) rfl).1.trans (by rfl)⟩

/-- Claim C4.  A line that does not begin with the six characters `data: `
yields no fragment and no error report, whatever else it contains: on its own
it leaves an empty trace, and inside a stream the trace is that of the lines
around it.  So it is for a blank line and for a comment line. -/
theorem line_without_prefix_is_ignored (unmarshal : String → Except String Response)
    (pre post : List String) (line : String) (h : ∀ p : String, line ≠ "data: " ++ p) :
    decodeLoop unmarshal [line] = []
    ∧ decodeLoop unmarshal (pre ++ [line] ++ post)
        = decodeLoop unmarshal pre ++ decodeLoop unmarshal post
    ∧ decodeLoop unmarshal [""] = []
    ∧ decodeLoop unmarshal [": keep-alive"] = [] := by
  have hp : hasPrefix line "data: " = false := by
    cases hh : hasPrefix line "data: " with
    | false => rfl
    | true =>
      obtain ⟨t, ht⟩ := (hasPrefix_iff _ _).1 hh
      exact absurd ht (h t)
  have h0 := decodeLoop_noPrefix unmarshal line hp
  refine ⟨h0, ?_, decodeLoop_noPrefix unmarshal _ rfl, decodeLoop_noPrefix unmarshal _ rfl⟩
  rw [decodeLoop_append, decodeLoop_append, h0, List.append_nil]

/-- Witness for claim C4: the line `data:{"choices":[{"delta":{"content":"x"}}]}`,
a content payload behind `data:` without the space, between the content
events of `a` and of `b`. -/
theorem line_without_prefix_is_ignored_witness :
    (∀ p : String,
      "data:\x7b\"choices\":[\x7b\"delta\":\x7b\"content\":\"x\"\x7d\x7d]\x7d" ≠ "data: " ++ p)
    ∧ decodeLoop jsonUnmarshal
        (["data: \x7b\"choices\":[\x7b\"delta\":\x7b\"content\":\"a\"\x7d\x7d]\x7d"]
          ++ ["data:\x7b\"choices\":[\x7b\"delta\":\x7b\"content\":\"x\"\x7d\x7d]\x7d"]
          ++ ["data: \x7b\"choices\":[\x7b\"delta\":\x7b\"content\":\"b\"\x7d\x7d]\x7d"])
      = [.stdout "a", .stdout "b"] :=
  have h : ∀ p : String,
      "data:\x7b\"choices\":[\x7b\"delta\":\x7b\"content\":\"x\"\x7d\x7d]\x7d" ≠ "data: " ++ p :=
    fun p hp => by
      have h1 := (hasPrefix_iff _ _).2 ⟨p, hp⟩
      revert h1
      decide
  ⟨h, (line_without_prefix_is_ignored jsonUnmarshal _ _ _ h).2.1.trans (by rfl)⟩

/-- Claim C5.  A data line whose payload decodes to a response with an empty
`choices`, or with an empty `choices[0].delta.content`, yields no fragment and
no error report.  Only `choices[0]` is looked at: the later choices `rest` are
arbitrary and nothing of them is written, and whatever a decodable data line
writes is the content of `choices[0]`. -/
theorem empty_event_is_silent (unmarshal : String → Except String Response)
    (pre post : List String) (p : String) (response : Response)
    (hok : unmarshal p = .ok response)
    (hempty : response.Choices = []
      ∨ ∃ choice rest, response.Choices = choice :: rest ∧ choice.Delta.Content = "") :
    decodeLoop unmarshal ["data: " ++ p] = []
    ∧ decodeLoop unmarshal (pre ++ ["data: " ++ p] ++ post)
        = decodeLoop unmarshal pre ++ decodeLoop unmarshal post
    ∧ (∀ q r, unmarshal q = .ok r →
        decodeLoop unmarshal ["data: " ++ q] = []
        ∨ ∃ choice rest, r.Choices = choice :: rest
            ∧ decodeLoop unmarshal ["data: " ++ q] = [.stdout choice.Delta.Content]) := by
  have h0 : decodeLoop unmarshal ["data: " ++ p] = [] := by
    rw [decodeLoop_data, hok]
    obtain ⟨cs⟩ := response
    rcases hempty with h | ⟨c, rest, h, hc⟩
    · simp only at h
      subst h
      simp
    · simp only at h
      subst h
      simp [hc]
  refine ⟨h0, ?_, ?_⟩
  · rw [decodeLoop_append, decodeLoop_append, h0, List.append_nil]
  · intro q r hq
    rw [decodeLoop_data, hq]
    obtain ⟨cs⟩ := r
    by_cases hd : q = "" ∨ q = "[DONE]"
    · exact Or.inl (if_pos hd)
    · rw [if_neg hd]
      cases cs with
      | nil => exact Or.inl rfl
      | cons c rest =>
        by_cases hc : c.Delta.Content = ""
        · exact Or.inl (by simp [hc])
        · exact Or.inr ⟨c, rest, rfl, by simp [hc]⟩

/-- Witness for claim C5: the payload
`{"choices":[{"delta":{"role":"assistant"}},{"delta":{"content":"second"}}]}`,
a role-only first choice followed by a second choice that has content. -/
theorem empty_event_is_silent_witness :
    jsonUnmarshal
        ("\x7b\"choices\":[\x7b\"delta\":\x7b\"role\":\"assistant\"\x7d\x7d,"
          ++ "\x7b\"delta\":\x7b\"content\":\"second\"\x7d\x7d]\x7d")
      = .ok ⟨[⟨⟨""⟩⟩, ⟨⟨"second"⟩⟩]⟩
    ∧ decodeLoop jsonUnmarshal
        ["data: " ++ ("\x7b\"choices\":[\x7b\"delta\":\x7b\"role\":\"assistant\"\x7d\x7d,"
          ++ "\x7b\"delta\":\x7b\"content\":\"second\"\x7d\x7d]\x7d")]
      = [] :=
  ⟨rfl, (empty_event_is_silent jsonUnmarshal [] []
      ("\x7b\"choices\":[\x7b\"delta\":\x7b\"role\":\"assistant\"\x7d\x7d,"
        ++ "\x7b\"delta\":\x7b\"content\":\"second\"\x7d\x7d]\x7d")
      ⟨[⟨⟨""⟩⟩, ⟨⟨"second"⟩⟩]⟩ rfl (Or.inr ⟨_, _, rfl, rfl⟩)).1⟩

/-- Claim C6.  When the lines are read to the end without a transport error,
standard output receives the fragments of the decode loop followed by exactly
one line feed and nothing else, and the exit status is 0; so it is for a
whole run of `main` that gets the lines under the status 200.  The three lines
of the scenario, the content events of `Hel` and of `lo` and the sentinel,
give `Hello` and a line feed; an empty stream gives a line feed alone. -/
theorem stream_output_ends_with_one_newline (unmarshal : String → Except String Response)
    (lines : List String) :
    stdoutWrites (processStream unmarshal lines none).trace
        = stdoutWrites (decodeLoop unmarshal lines) ++ ["\n"]
    ∧ concat (stdoutWrites (processStream unmarshal lines none).trace)
        = concat (stdoutWrites (decodeLoop unmarshal lines)) ++ "\n"
    ∧ (processStream unmarshal lines none).exitCode = 0
    ∧ stdoutWrites (main (sampleWorld { apiKey := "sk-test" } "" "hi\n"
        ⟨200, ⟨"", lines, none⟩⟩)).trace
        = stdoutWrites (decodeLoop jsonUnmarshal lines) ++ ["\n"]
    ∧ concat (stdoutWrites (processStream jsonUnmarshal
        ["data: \x7b\"choices\":[\x7b\"delta\":\x7b\"content\":\"Hel\"\x7d\x7d]\x7d",
         "data: \x7b\"choices\":[\x7b\"delta\":\x7b\"content\":\"lo\"\x7d\x7d]\x7d",
         "data: [DONE]"] none).trace) = "Hello\n"
    ∧ concat (stdoutWrites (processStream unmarshal [] none).trace) = "\n" := by
  have h : ∀ u, stdoutWrites (processStream u lines none).trace
      = stdoutWrites (decodeLoop u lines) ++ ["\n"] := by
    intro u
    simp [processStream, stdoutWrites_append, stdoutWrites]
  refine ⟨h unmarshal, ?_, rfl, ?_, by rfl, by rfl⟩
  · rw [h, concat_append]
    rfl
  · have hin : (readInput (sampleWorld { apiKey := "sk-test" } "" "hi\n"
        ⟨200, ⟨"", lines, none⟩⟩).stdin).2 = .ok "hi\n" := by
      show (readInput ⟨"hi\n", none⟩).2 = .ok "hi\n"
      rw [readInput_eq]
      rfl
    rw [stdoutWrites_main_ok
      (sampleWorld { apiKey := "sk-test" } "" "hi\n" ⟨200, ⟨"", lines, none⟩⟩)
      "sk-test" "hi\n" "gpt-4o-mini\nuser: hi\n" ⟨200, ⟨"", lines, none⟩⟩
      rfl (by decide) rfl hin rfl rfl]
    exact h jsonUnmarshal

/-- Claim C7 (code defect).  The stdin loop accumulates the input only up to
its last line feed: the read that meets the end of the stream returns the
unterminated last line together with `io.EOF`, and the loop breaks before
appending it.  On the input `hello` the accumulated text is empty, and the
request that is sent carries an empty prompt.  The loop accumulates the whole
input exactly when the input is empty or ends with a line feed. -/
theorem stdin_loop_drops_unterminated_line :
    (readInput ⟨"hello", none⟩).2 = .ok ""
    ∧ (readInput ⟨"first\nsecond", none⟩).2 = .ok "first\n"
    ∧ (readInput ⟨"hello\n", none⟩).2 = .ok "hello\n"
    ∧ (∀ s : String, (readInput ⟨s, none⟩).2 = .ok (completeLines s))
    ∧ (∀ s : String,
        (readInput ⟨s, none⟩).2 = .ok s ↔ (s = "" ∨ s.data.getLast? = some '\n'))
    ∧ requestsSent (main (sampleWorld { apiKey := "sk-test" } "" "hello"
        ⟨200, ⟨"", [], none⟩⟩)).trace
      = [buildHttpRequest "gpt-4o-mini\nuser: " "sk-test"] := by
  have hgen : ∀ s : String, (readInput ⟨s, none⟩).2 = .ok (completeLines s) := by
    intro s
    rw [readInput_eq]
  refine ⟨?_, ?_, ?_, hgen, ?_, ?_⟩
  · rw [hgen]; rfl
  · rw [hgen]; rfl
  · rw [hgen]; rfl
  · intro s
    rw [hgen, ← completeLines_eq_self_iff]
    constructor
    · intro h
      exact Except.ok.inj h
    · intro h
      rw [h]
  · rw [main_eq_mainWithKey _ (by decide), requestsSent_mainWithKey]
    have h : (readInput (sampleWorld { apiKey := "sk-test" } "" "hello"
        ⟨200, ⟨"", [], none⟩⟩).stdin).2 = .ok "" := by
      show (readInput ⟨"hello", none⟩).2 = .ok ""
      rw [hgen]; rfl
    rw [h]
    rfl

/-- Counterexample to claim C8 as stated: the status 201 is a 2xx status, yet
the response is fatal, with the body in the message, exit status 1 and no
decoding of the event `data: {"choices":[{"delta":{"content":"Hi"}}]}` the
body holds; under the status 200 the same body is decoded. -/
theorem status_201_is_fatal :
    (200 : Int) ≤ 201 ∧ (201 : Int) ≤ 299
    ∧ handleResponse jsonUnmarshal
        ⟨201, ⟨"data: \x7b\"choices\":[\x7b\"delta\":\x7b\"content\":\"Hi\"\x7d\x7d]\x7d\n",
          ["data: \x7b\"choices\":[\x7b\"delta\":\x7b\"content\":\"Hi\"\x7d\x7d]\x7d"], none⟩⟩
      = ⟨[.stderr ("Error from API (status 201): "
            ++ "data: \x7b\"choices\":[\x7b\"delta\":\x7b\"content\":\"Hi\"\x7d\x7d]\x7d\n" ++ "\n")], 1⟩
    ∧ handleResponse jsonUnmarshal
        ⟨200, ⟨"data: \x7b\"choices\":[\x7b\"delta\":\x7b\"content\":\"Hi\"\x7d\x7d]\x7d\n",
          ["data: \x7b\"choices\":[\x7b\"delta\":\x7b\"content\":\"Hi\"\x7d\x7d]\x7d"], none⟩⟩
      = ⟨[.stdout "Hi", .stdout "\n", .bodyClose], 0⟩ :=
  ⟨by decide, by decide, by rfl, by rfl⟩

/-- Claim C8, amended.  The response is fatal exactly when its status is not
200: then the only effect is one message on standard error that holds the
status and the response body, the exit status is 1 and nothing is decoded, so
that a whole run of `main` ends with status 1 and nothing on standard output.
Exactly for the status 200 the body is processed as a stream. -/
theorem status_other_than_200_is_fatal (unmarshal : String → Except String Response)
    (resp : HttpResponse) :
    (handleResponse unmarshal resp
        = ⟨[.stderr ("Error from API (status " ++ toString resp.StatusCode ++ "): "
            ++ resp.Body.all ++ "\n")], 1⟩
      ↔ resp.StatusCode ≠ 200)
    ∧ (handleResponse unmarshal resp = processStream unmarshal resp.Body.lines resp.Body.err
      ↔ resp.StatusCode = 200)
    ∧ (resp.StatusCode ≠ 200 →
        (main (sampleWorld { apiKey := "sk-test" } "" "hi\n" resp)).exitCode = 1
        ∧ stdoutWrites (main (sampleWorld { apiKey := "sk-test" } "" "hi\n" resp)).trace
            = []) := by
  have hfatal : ∀ u, resp.StatusCode ≠ 200 → handleResponse u resp
      = ⟨[.stderr ("Error from API (status " ++ toString resp.StatusCode ++ "): "
          ++ resp.Body.all ++ "\n")], 1⟩ := by
    intro u hs
    unfold handleResponse StatusOK
    rw [if_pos hs]
  refine ⟨?_, ?_, ?_⟩
  · refine ⟨fun h hs => ?_, hfatal unmarshal⟩
    unfold handleResponse StatusOK at h
    rw [if_neg (not_not.2 hs)] at h
    exact processStream_ne_apiError _ _ _ _ _ h
  · refine ⟨fun h => ?_, fun hs => ?_⟩
    · by_contra hs
      rw [hfatal unmarshal hs] at h
      exact processStream_ne_apiError _ _ _ _ _ h.symm
    · unfold handleResponse StatusOK
      rw [if_neg (not_not.2 hs)]
  · intro hs
    have hin : (readInput (sampleWorld { apiKey := "sk-test" } "" "hi\n" resp).stdin).2
        = .ok "hi\n" := by
      show (readInput ⟨"hi\n", none⟩).2 = .ok "hi\n"
      rw [readInput_eq]
      rfl
    have hmain := main_ok (sampleWorld { apiKey := "sk-test" } "" "hi\n" resp)
      "sk-test" "hi\n" "gpt-4o-mini\nuser: hi\n" resp rfl (by decide) rfl hin rfl rfl
    have hout := stdoutWrites_main_ok (sampleWorld { apiKey := "sk-test" } "" "hi\n" resp)
      "sk-test" "hi\n" "gpt-4o-mini\nuser: hi\n" resp rfl (by decide) rfl hin rfl rfl
    have hf : handleResponse (sampleWorld { apiKey := "sk-test" } "" "hi\n" resp).unmarshal resp
        = ⟨[.stderr ("Error from API (status " ++ toString resp.StatusCode ++ "): "
            ++ resp.Body.all ++ "\n")], 1⟩ := hfatal _ hs
    rw [hout, hmain, hf]
    exact ⟨rfl, rfl⟩

/-- Claim C9.  The key in the `Authorization` header of every request the
program sends is the flag value when that is not empty and otherwise the
value of the environment variable, and it is not empty; with such a key,
piped input that is read without error and a request that marshals, exactly
one request is sent.  When both values are empty the program writes one
message to standard error and exits with status 1: standard input is not
touched and no request is built or sent. -/
theorem api_key_resolution (w : World) :
    (w.flags.apiKey = "" → w.getenv "OPENAI_API_KEY" = "" →
      (main w).exitCode = 1
      ∧ stdinAccesses (main w).trace = 0
      ∧ requestsSent (main w).trace = []
      ∧ (main w).trace = [.stderr "Error: OpenAI API key must be provided either via --api-key or OPENAI_API_KEY environment variable\n"])
    ∧ (∀ req ∈ requestsSent (main w).trace,
        req.header "Authorization"
          = "Bearer " ++ resolvedKey w.flags.apiKey (w.getenv "OPENAI_API_KEY")
        ∧ resolvedKey w.flags.apiKey (w.getenv "OPENAI_API_KEY") ≠ "")
    ∧ (∀ input body,
        resolvedKey w.flags.apiKey (w.getenv "OPENAI_API_KEY") ≠ "" →
        w.stdinStat = some false →
        (readInput w.stdin).2 = .ok input →
        w.marshal (buildRequest w.flags.model
          (buildPrompt w.flags.context w.flags.codeOnly input)) = .ok body →
        requestsSent (main w).trace
          = [buildHttpRequest body (resolvedKey w.flags.apiKey (w.getenv "OPENAI_API_KEY"))]) := by
  refine ⟨?_, ?_, ?_⟩
  · intro hf he
    rw [main_noKey w hf he]
    exact ⟨rfl, rfl, rfl, rfl⟩
  · intro req hreq
    obtain ⟨input, body, -, -, rfl⟩ := mem_requestsSent_main w req hreq
    refine ⟨header_authorization _ _, ?_⟩
    intro hk
    have hf : w.flags.apiKey = "" := by
      unfold resolvedKey at hk
      by_contra hf
      simp [hf] at hk
    have he : w.getenv "OPENAI_API_KEY" = "" := by
      unfold resolvedKey at hk
      simpa [hf] using hk
    rw [main_noKey w hf he] at hreq
    simp [requestsSent] at hreq
  · intro input body hk hstat hin hm
    rw [main_eq_mainWithKey w hk, requestsSent_mainWithKey, hstat, hin]
    simp only [hm]

/-- Witness for claim C9: with both the flag and the variable set, one request
goes out and carries the flag value; with the flag empty it carries the
variable; with both empty nothing goes out. -/
theorem api_key_resolution_witness :
    (requestsSent (main (sampleWorld { apiKey := "from-flag" } "from-env" "hi\n"
        ⟨200, ⟨"", [], none⟩⟩)).trace).map (fun r => r.header "Authorization")
      = ["Bearer from-flag"]
    ∧ (requestsSent (main (sampleWorld {} "from-env" "hi\n"
        ⟨200, ⟨"", [], none⟩⟩)).trace).map (fun r => r.header "Authorization")
      = ["Bearer from-env"]
    ∧ main (sampleWorld {} "" "hi\n" ⟨200, ⟨"", [], none⟩⟩)
      = ⟨[.stderr "Error: OpenAI API key must be provided either via --api-key or OPENAI_API_KEY environment variable\n"], 1⟩ := by
  have hin : ∀ f e r, (readInput (sampleWorld f e "hi\n" r).stdin).2 = .ok "hi\n" := by
    intro f e r
    show (readInput ⟨"hi\n", none⟩).2 = .ok "hi\n"
    rw [readInput_eq]; rfl
  refine ⟨?_, ?_, ?_⟩
  · rw [main_eq_mainWithKey _ (by decide), requestsSent_mainWithKey, hin]
    rfl
  · rw [main_eq_mainWithKey _ (by decide), requestsSent_mainWithKey, hin]
    rfl
  · exact ((api_key_resolution (sampleWorld {} "" "hi\n" ⟨200, ⟨"", [], none⟩⟩)).1 rfl rfl).2.2.2
      ▸ rfl

/-- Claim C10.  The request holds exactly one message, of role `user`, with
`stream` set and the model of the flag; its content is `P(b) ++ C(c) ++ s`,
where `s` is the text accumulated from standard input.  With code-only mode
set the prompt begins with the fixed instruction, before any context; with
neither option the content is `s`.  Every request `main` sends is a POST to
the API URL whose body is the marshalling of that request value. -/
theorem prompt_and_request_assembly (w : World) (c m s : String) (b : Bool) :
    buildRequest m (buildPrompt c b s)
      = { Model := m
          Messages := [{ Role := "user", Content := codePrefix b ++ contextPrefix c ++ s }]
          Stream := true }
    ∧ (b = true → buildPrompt c b s = codeOnlyInstruction ++ "\n\n" ++ (contextPrefix c ++ s))
    ∧ (b = false → c = "" → buildPrompt c b s = s)
    ∧ (∀ req ∈ requestsSent (main w).trace, ∃ input,
        (readInput w.stdin).2 = .ok input
        ∧ w.marshal
            { Model := w.flags.model
              Messages := [{ Role := "user",
                             Content := codePrefix w.flags.codeOnly
                               ++ contextPrefix w.flags.context ++ input }]
              Stream := true } = .ok req.body
        ∧ req.method = "POST" ∧ req.url = apiURL) := by
  have hnil : ∀ t : String, "" ++ t = t := fun t => String.ext (by simp [String.data_append])
  refine ⟨?_, ?_, ?_, ?_⟩
  · rw [buildPrompt_eq]; rfl
  · intro hb
    rw [buildPrompt_eq, hb, String.append_assoc]
    rfl
  · intro hb hc
    rw [buildPrompt_eq, hb, hc]
    simp [codePrefix, contextPrefix, hnil]
  · intro req hreq
    obtain ⟨input, body, hin, hm, rfl⟩ := mem_requestsSent_main w req hreq
    refine ⟨input, hin, ?_, rfl, rfl⟩
    rw [← buildPrompt_eq]
    exact hm

/-- Witness for claim C10: context `Fix:`, code-only mode and the input
`x = 1` on one line. -/
theorem prompt_and_request_assembly_witness :
    (requestsSent (main (sampleWorld
        { context := "Fix:", codeOnly := true, apiKey := "sk-test" } "" "x = 1\n"
        ⟨200, ⟨"", [], none⟩⟩)).trace).map (fun r => r.body)
      = [concat ["gpt-4o-mini", "\nuser: ", codeOnlyInstruction, "\n\n", "Fix:", "\n\n",
          "x = 1\n"]]
    ∧ buildRequest "gpt-4o-mini" (buildPrompt "Fix:" true "x = 1\n")
      = { Model := "gpt-4o-mini"
          Messages := [{ Role := "user",
                         Content := codePrefix true ++ contextPrefix "Fix:" ++ "x = 1\n" }]
          Stream := true } := by
  constructor
  · rw [main_eq_mainWithKey _ (by decide), requestsSent_mainWithKey]
    have hin : (readInput (sampleWorld
        { context := "Fix:", codeOnly := true, apiKey := "sk-test" } "" "x = 1\n"
        ⟨200, ⟨"", [], none⟩⟩).stdin).2 = .ok "x = 1\n" := by
      show (readInput ⟨"x = 1\n", none⟩).2 = .ok "x = 1\n"
      rw [readInput_eq]; rfl
    rw [hin]
    rfl
  · exact (prompt_and_request_assembly
      (sampleWorld {} "" "" ⟨200, ⟨"", [], none⟩⟩) "Fix:" "gpt-4o-mini" "x = 1\n" true).1

end Sai
